import Mathlib

/-!
Verification of the RITC2025 trading system against its specification.

The definitions below are a shallow embedding of the Python sources:
  * src/RITC/base/Portfolio.py   (BankAccount FX table and conversions,
    Portfolio position-limit checks and batch compression)
  * src/RITC/base/OrderBook.py   (ExtendOrderBook VWAP and trade-cost logic)
  * src/base/ApiTrading.py       (local order validation of place_order)
  * src/ALGO/ArbitrageStrategy.py (tender and conversion signals)

Python floats are modelled as rationals, Python ints as integers, dicts as
association lists in insertion order, raised exceptions as error values of
an explicit exception type, and functions that can raise become Option- or
Except-valued.
-/

namespace RITC

/-- The two sides of a trade; Python strings "buy"/"sell" after lower-casing. -/
inductive Action where
  | buy
  | sell
deriving DecidableEq, Repr

/-- Python strings "market"/"limit". -/
inductive OrderType where
  | market
  | limit
deriving DecidableEq, Repr

/-- The Python exceptions that the embedded code can raise. -/
inductive PyExn where
  | typeError
  | valueError
  | attributeError
deriving DecidableEq, Repr

/-- Association-list lookup, mirroring a Python dict read d[k]
    (first binding wins; Python dict keys are unique). -/
def alookup (k : String) : List (String × α) → Option α
  | [] => none
  | (k1, v) :: rest => if k1 = k then some v else alookup k rest

/-- Python dict assignment d[k] = v: replace the binding for k in place,
    or append a new binding (insertion order is preserved). -/
def dictInsert (k : String) (v : α) : List (String × α) → List (String × α)
  | [] => [(k, v)]
  | (k1, v1) :: rest => if k1 = k then (k, v) :: rest else (k1, v1) :: dictInsert k v rest

theorem alookup_dictInsert_self (k : String) (v : α) :
    ∀ l : List (String × α), alookup k (dictInsert k v l) = some v := by
  intro l
  induction l with
  | nil => simp [dictInsert, alookup]
  | cons hd tl ih =>
    obtain ⟨k1, v1⟩ := hd
    by_cases h : k1 = k
    · simp [dictInsert, h, alookup]
    · simp [dictInsert, h, alookup, ih]

/-- Python truncation int(x): toward zero. -/
def truncQ (x : ℚ) : ℤ := if 0 ≤ x then ⌊x⌋ else ⌈x⌉

/-- Python str.upper(), mapped over the characters of the string. -/
def upper (s : String) : String := String.mk (s.data.map Char.toUpper)

/-! ## BankAccount: FX rate table and conversions (src/RITC/base/Portfolio.py) -/

/-- One stored bid/ask pair of `BankAccount.exchange_rates[base][quote]`. -/
structure FxRate where
  bid : ℚ
  ask : ℚ
deriving DecidableEq, Repr

/-- The nested dict `exchange_rates : Dict[str, Dict[str, Dict[str, float]]]`. -/
def Rates : Type := List (String × List (String × FxRate))

/-- Direct double lookup `exchange_rates[base][quote]`
    (either missing key raises KeyError, modelled as none). -/
def lookup2 (rates : Rates) (base quote : String) : Option FxRate :=
  match alookup base rates with
  | none => none
  | some inner => alookup quote inner

/-- BankAccount.set_foreign_exchange_rate: note it assigns a fresh
    single-entry inner dict, replacing every quote stored under the base. -/
def set_foreign_exchange_rate (rates : Rates) (base_currency quote_currency : String)
    (bid_rate ask_rate : ℚ) : Rates :=
  dictInsert (upper base_currency) [(upper quote_currency, ⟨bid_rate, ask_rate⟩)] rates

/-- BankAccount.get_exchange_rate: direct entry uses bid for sell and ask for
    buy; a missing direct entry falls back to the inverse of the reverse entry
    with the opposite side; none models the raised ValueError. -/
def get_exchange_rate (rates : Rates) (base_currency quote_currency : String)
    (action : Action) : Option ℚ :=
  let base := upper base_currency
  let quote := upper quote_currency
  if base = quote then some 1
  else
    match lookup2 rates base quote with
    | some r => some (match action with | .sell => r.bid | .buy => r.ask)
    | none =>
      match lookup2 rates quote base with
      | some r => some (1 / (match action with | .sell => r.ask | .buy => r.bid))
      | none => none

/-- BankAccount.currency_value_conversion: divides by the rate obtained with
    action buy for a positive amount and sell otherwise. -/
def currency_value_conversion (rates : Rates) (from_currency to_currency : String)
    (initial_value : ℚ) : Option ℚ :=
  (get_exchange_rate rates from_currency to_currency
      (if initial_value > 0 then .buy else .sell)).map (fun r => initial_value / r)

/-- BankAccount.currency_value_conversion_targetamount: always uses the buy rate. -/
def currency_value_conversion_targetamount (rates : Rates)
    (from_currency to_currency : String) (target_value : ℚ) : Option ℚ :=
  (get_exchange_rate rates from_currency to_currency .buy).map (fun r => target_value * r)

/-- Currency names used in concrete instances. -/
def USD : String := "USD"

def CAD : String := "CAD"

def EUR : String := "EUR"

/-- On a table holding the single direct entry base to quote, a conversion of a
    positive amount divides by the ask rate and of a non-positive amount by the
    bid rate (get_exchange_rate with buy returns the ask, with sell the bid). -/
theorem conversion_single_direct (b q : String) (bid ask x : ℚ)
    (hbq : upper b ≠ upper q) :
    (0 < x → currency_value_conversion (set_foreign_exchange_rate [] b q bid ask) b q x
        = some (x / ask)) ∧
    (¬ 0 < x → currency_value_conversion (set_foreign_exchange_rate [] b q bid ask) b q x
        = some (x / bid)) := by
  constructor <;> intro hx <;>
    simp [currency_value_conversion, get_exchange_rate, set_foreign_exchange_rate,
      lookup2, dictInsert, alookup, hbq, hx]

/-- Converting in the reverse of the stored direction falls back to the inverted
    reverse entry with the opposite side: one over bid for a positive amount,
    one over ask otherwise. -/
theorem conversion_single_inverse (b q : String) (bid ask y : ℚ)
    (hbq : upper b ≠ upper q) :
    (0 < y → currency_value_conversion (set_foreign_exchange_rate [] b q bid ask) q b y
        = some (y / (1 / bid))) ∧
    (¬ 0 < y → currency_value_conversion (set_foreign_exchange_rate [] b q bid ask) q b y
        = some (y / (1 / ask))) := by
  have hqb : upper q ≠ upper b := Ne.symm hbq
  constructor <;> intro hy <;>
    simp [currency_value_conversion, get_exchange_rate, set_foreign_exchange_rate,
      lookup2, dictInsert, alookup, hbq, hqb, hy]

/-- The FX table used to refute claim C2: USD to CAD with bid 2 and ask 4. -/
def c2rates : Rates := set_foreign_exchange_rate [] USD CAD 2 4

/-- C2 counterexample: with the stored pair bid 2 / ask 4, converting the
    positive amount 8 from USD to CAD yields 8 divided by the ask (= 2), not
    8 divided by the bid obtained with action sell (= 4): the code uses the
    buy rate for positive amounts, refuting the claim as stated. -/
theorem c2_counterexample :
    get_exchange_rate c2rates USD CAD .sell = some 2 ∧
    currency_value_conversion c2rates USD CAD 8 = some 2 ∧
    ¬ currency_value_conversion c2rates USD CAD 8 =
        (get_exchange_rate c2rates USD CAD .sell).map (fun r => 8 / r) := by
  have h : upper USD ≠ upper CAD := by decide
  refine ⟨?_, ?_, ?_⟩ <;>
    norm_num [c2rates, currency_value_conversion, get_exchange_rate,
      set_foreign_exchange_rate, lookup2, dictInsert, alookup, h]

/-- C2 (amended): for every stored currency pair, currency_value_conversion
    converts a positive amount with the rate looked up with action buy (the ask
    side, dividing by the ask), and a negative amount with the sell (bid) side. -/
theorem c2_conversion_sides (b q : String) (bid ask x : ℚ)
    (hbq : upper b ≠ upper q) :
    (0 < x → currency_value_conversion (set_foreign_exchange_rate [] b q bid ask) b q x
        = some (x / ask)) ∧
    (x < 0 → currency_value_conversion (set_foreign_exchange_rate [] b q bid ask) b q x
        = some (x / bid)) :=
  ⟨(conversion_single_direct b q bid ask x hbq).1,
   fun hx => (conversion_single_direct b q bid ask x hbq).2 (not_lt.mpr hx.le)⟩

/-- C2 witness: the amended theorem evaluated on the concrete pair bid 2 / ask 4
    at amounts 8 and -8. -/
theorem c2_witness :
    currency_value_conversion (set_foreign_exchange_rate [] USD CAD 2 4) USD CAD 8
      = some (8 / 4) ∧
    currency_value_conversion (set_foreign_exchange_rate [] USD CAD 2 4) USD CAD (-8)
      = some ((-8) / 2) :=
  ⟨(c2_conversion_sides USD CAD 2 4 8 (by decide)).1 (by norm_num),
   (c2_conversion_sides USD CAD 2 4 (-8) (by decide)).2 (by norm_num)⟩

/-- C6: on a table storing the single direction b to q with 0 < bid < ask, the
    round trip conversion of any x > 0 (b to q, then q back to b) succeeds and
    returns a strictly smaller positive amount, never x itself. -/
theorem c6_fx_round_trip (b q : String) (bid ask x : ℚ)
    (hbq : upper b ≠ upper q) (hbid : 0 < bid) (hba : bid < ask) (hx : 0 < x) :
    ∃ y z,
      currency_value_conversion (set_foreign_exchange_rate [] b q bid ask) b q x = some y ∧
      currency_value_conversion (set_foreign_exchange_rate [] b q bid ask) q b y = some z ∧
      0 < z ∧ z < x := by
  have hask : 0 < ask := hbid.trans hba
  have hy : 0 < x / ask := div_pos hx hask
  have hzval : (x / ask) / (1 / bid) = x * bid / ask := by
    field_simp
  refine ⟨x / ask, (x / ask) / (1 / bid), ?_, ?_, ?_, ?_⟩
  · exact (conversion_single_direct b q bid ask x hbq).1 hx
  · exact (conversion_single_inverse b q bid ask (x / ask) hbq).1 hy
  · rw [hzval]
    exact div_pos (mul_pos hx hbid) hask
  · rw [hzval, div_lt_iff₀ hask]
    exact mul_lt_mul_of_pos_left hba hx

/-- C6 witness: the round trip on the concrete table USD to CAD, bid 1 / ask 2,
    starting from 5. -/
theorem c6_witness :
    ∃ y z,
      currency_value_conversion (set_foreign_exchange_rate [] USD CAD 1 2) USD CAD 5 = some y ∧
      currency_value_conversion (set_foreign_exchange_rate [] USD CAD 1 2) CAD USD y = some z ∧
      0 < z ∧ z < 5 :=
  c6_fx_round_trip USD CAD 1 2 5 (by decide) (by norm_num) (by norm_num) (by norm_num)

/-- C9: set_foreign_exchange_rate replaces the whole inner dict stored under the
    base currency, so any other quote currency previously stored under the same
    base no longer has a direct entry after the call. -/
theorem c9_set_rate_replaces (rates : Rates) (base quote qp : String) (bid ask : ℚ)
    (r : FxRate) (hq : upper qp ≠ upper quote)
    (_hprev : lookup2 rates (upper base) (upper qp) = some r) :
    lookup2 (set_foreign_exchange_rate rates base quote bid ask)
      (upper base) (upper qp) = none := by
  unfold lookup2 set_foreign_exchange_rate
  rw [alookup_dictInsert_self]
  simp [alookup, Ne.symm hq]

/-- C9 witness: after storing USD to CAD and then setting USD to EUR, the direct
    USD to CAD entry is gone. -/
theorem c9_witness :
    lookup2 (set_foreign_exchange_rate (set_foreign_exchange_rate [] USD CAD 1 2)
      USD EUR 3 4) (upper USD) (upper CAD) = none :=
  c9_set_rate_replaces (set_foreign_exchange_rate [] USD CAD 1 2) USD EUR CAD 3 4
    ⟨1, 2⟩ (by decide) rfl

/-! ## ExtendOrderBook (src/RITC/base/OrderBook.py)

The linked list of resting orders on one side is modelled as the list of its
(price, volume) nodes in list order: asks ascending, bids descending by price
in a well-formed book. -/

/-- An ExtendOrderBook restricted to the fields the embedded operations read. -/
structure Book where
  asks : List (ℚ × ℚ)
  bids : List (ℚ × ℚ)
  transaction_fee : ℚ
  rebate_fee : ℚ
  currency : String

/-- The side walked for a given action: asks for buy, bids for sell. -/
def sideOf (b : Book) : Action → List (ℚ × ℚ)
  | .buy => b.asks
  | .sell => b.bids

/-- Total resting volume of one side. -/
def totalDepth : List (ℚ × ℚ) → ℚ
  | [] => 0
  | pv :: rest => pv.2 + totalDepth rest

/-- The level-consuming loop of calculate_vwap_market_price: returns the
    accumulated cost and the quantity left unfilled. -/
def vwapWalk : List (ℚ × ℚ) → ℚ → ℚ × ℚ
  | [], u => (0, u)
  | (p, v) :: rest, u =>
    if u ≤ 0 then (0, u)
    else if v < u then
      let w := vwapWalk rest (u - v)
      (p * v + w.1, w.2)
    else (p * u, 0)

/-- The price of the level on which the walk stops consuming (the worst price
    touched); d is the running value carried into the walk. -/
def lastTouched : List (ℚ × ℚ) → ℚ → ℚ → ℚ
  | [], _, d => d
  | (p, v) :: rest, u, d =>
    if u ≤ 0 then d
    else if v < u then lastTouched rest (u - v) p
    else p

/-- ExtendOrderBook.calculate_vwap_market_price: walks the consumed side; none
    models the None returned when depth runs out; with consider_cost the
    transaction fee is added for a buy and subtracted for a sell. -/
def calculate_vwap_market_price (b : Book) (quantity : ℚ) (action : Action)
    (consider_cost : Bool) : Option ℚ :=
  let w := vwapWalk (sideOf b action) quantity
  if w.2 > 0 then none
  else some (if consider_cost then
      match action with
      | .buy => w.1 / quantity + b.transaction_fee
      | .sell => w.1 / quantity - b.transaction_fee
    else w.1 / quantity)

theorem totalDepth_nonneg (l : List (ℚ × ℚ)) (h : ∀ pv ∈ l, 0 ≤ pv.2) :
    0 ≤ totalDepth l := by
  induction l with
  | nil => simp [totalDepth]
  | cons hd tl ih =>
    have h1 := h hd (List.mem_cons_self _ _)
    have h2 : ∀ pv ∈ tl, 0 ≤ pv.2 := fun pv hpv => h pv (List.mem_cons_of_mem _ hpv)
    simp only [totalDepth]
    have := ih h2
    linarith

theorem vwapWalk_snd_pos_iff (l : List (ℚ × ℚ)) :
    ∀ u : ℚ, 0 ≤ u → (∀ pv ∈ l, 0 ≤ pv.2) →
      ((vwapWalk l u).2 > 0 ↔ totalDepth l < u) := by
  induction l with
  | nil =>
    intro u _ _
    simp [vwapWalk, totalDepth]
  | cons hd tl ih =>
    intro u hu hv
    obtain ⟨p, v⟩ := hd
    have hv0 : 0 ≤ v := hv (p, v) (List.mem_cons_self _ _)
    have hvt : ∀ pv ∈ tl, 0 ≤ pv.2 := fun pv hpv => hv pv (List.mem_cons_of_mem _ hpv)
    have hd0 : 0 ≤ totalDepth tl := totalDepth_nonneg tl hvt
    by_cases h0 : u ≤ 0
    · have hu0 : u = 0 := le_antisymm h0 hu
      simp only [vwapWalk, totalDepth, if_pos h0, hu0]
      constructor
      · intro h
        exact absurd h (lt_irrefl 0)
      · intro h
        exfalso
        nlinarith
    · by_cases h1 : v < u
      · simp only [vwapWalk, totalDepth, if_neg h0, if_pos h1]
        have := ih (u - v) (by linarith) hvt
        constructor
        · intro h
          have := this.mp h
          linarith
        · intro h
          exact this.mpr (by linarith)
      · simp only [vwapWalk, totalDepth, if_neg h0, if_neg h1]
        constructor
        · intro h
          exact absurd h (lt_irrefl 0)
        · intro h
          exfalso
          push_neg at h1
          nlinarith

theorem vwapWalk_cost_lower (l : List (ℚ × ℚ)) :
    ∀ u c : ℚ, 0 < u → u ≤ totalDepth l → (∀ pv ∈ l, 0 ≤ pv.2) →
      (∀ pv ∈ l, c ≤ pv.1) → c * u ≤ (vwapWalk l u).1 := by
  induction l with
  | nil =>
    intro u c hu hd _ _
    simp only [totalDepth] at hd
    linarith
  | cons hd tl ih =>
    intro u c hu hdep hv hc
    obtain ⟨p, v⟩ := hd
    have hv0 : 0 ≤ v := hv (p, v) (List.mem_cons_self _ _)
    have hcp : c ≤ p := hc (p, v) (List.mem_cons_self _ _)
    have hvt : ∀ pv ∈ tl, 0 ≤ pv.2 := fun pv hpv => hv pv (List.mem_cons_of_mem _ hpv)
    have hct : ∀ pv ∈ tl, c ≤ pv.1 := fun pv hpv => hc pv (List.mem_cons_of_mem _ hpv)
    simp only [totalDepth] at hdep
    by_cases h1 : v < u
    · simp only [vwapWalk, if_neg (not_le.mpr hu), if_pos h1]
      have ihr := ih (u - v) c (by linarith) (by linarith) hvt hct
      nlinarith
    · simp only [vwapWalk, if_neg (not_le.mpr hu), if_neg h1]
      nlinarith

theorem lastTouched_ge (l : List (ℚ × ℚ)) :
    ∀ u d : ℚ, (∀ pv ∈ l, d ≤ pv.1) →
      (l.Pairwise fun a b => a.1 ≤ b.1) → d ≤ lastTouched l u d := by
  induction l with
  | nil =>
    intro u d _ _
    simp [lastTouched]
  | cons hd tl ih =>
    intro u d hdle hpair
    obtain ⟨p, v⟩ := hd
    have hdp : d ≤ p := hdle (p, v) (List.mem_cons_self _ _)
    rw [List.pairwise_cons] at hpair
    by_cases h0 : u ≤ 0
    · simp [lastTouched, if_pos h0]
    · by_cases h1 : v < u
      · simp only [lastTouched, if_neg h0, if_pos h1]
        exact hdp.trans (ih (u - v) p (fun pv hpv => hpair.1 pv hpv) hpair.2)
      · simp only [lastTouched, if_neg h0, if_neg h1]
        exact hdp

theorem vwapWalk_cost_upper (l : List (ℚ × ℚ)) :
    ∀ u d : ℚ, 0 < u → u ≤ totalDepth l → (∀ pv ∈ l, 0 ≤ pv.2) →
      (l.Pairwise fun a b => a.1 ≤ b.1) →
      (vwapWalk l u).1 ≤ lastTouched l u d * u := by
  induction l with
  | nil =>
    intro u d hu hd _ _
    simp only [totalDepth] at hd
    linarith
  | cons hd tl ih =>
    intro u d hu hdep hv hpair
    obtain ⟨p, v⟩ := hd
    have hv0 : 0 ≤ v := hv (p, v) (List.mem_cons_self _ _)
    have hvt : ∀ pv ∈ tl, 0 ≤ pv.2 := fun pv hpv => hv pv (List.mem_cons_of_mem _ hpv)
    rw [List.pairwise_cons] at hpair
    simp only [totalDepth] at hdep
    by_cases h1 : v < u
    · simp only [vwapWalk, lastTouched, if_neg (not_le.mpr hu), if_pos h1]
      have hpL : p ≤ lastTouched tl (u - v) p :=
        lastTouched_ge tl (u - v) p (fun pv hpv => hpair.1 pv hpv) hpair.2
      have ihr := ih (u - v) p (by linarith) (by linarith) hvt hpair.2
      nlinarith
    · simp only [vwapWalk, lastTouched, if_neg (not_le.mpr hu), if_neg h1]
      exact le_refl _

theorem vwapWalk_cost_upper_desc (l : List (ℚ × ℚ)) :
    ∀ u c : ℚ, 0 < u → u ≤ totalDepth l → (∀ pv ∈ l, 0 ≤ pv.2) →
      (∀ pv ∈ l, pv.1 ≤ c) → (vwapWalk l u).1 ≤ c * u := by
  induction l with
  | nil =>
    intro u c hu hd _ _
    simp only [totalDepth] at hd
    linarith
  | cons hd tl ih =>
    intro u c hu hdep hv hc
    obtain ⟨p, v⟩ := hd
    have hv0 : 0 ≤ v := hv (p, v) (List.mem_cons_self _ _)
    have hcp : p ≤ c := hc (p, v) (List.mem_cons_self _ _)
    have hvt : ∀ pv ∈ tl, 0 ≤ pv.2 := fun pv hpv => hv pv (List.mem_cons_of_mem _ hpv)
    have hct : ∀ pv ∈ tl, pv.1 ≤ c := fun pv hpv => hc pv (List.mem_cons_of_mem _ hpv)
    simp only [totalDepth] at hdep
    by_cases h1 : v < u
    · simp only [vwapWalk, if_neg (not_le.mpr hu), if_pos h1]
      have ihr := ih (u - v) c (by linarith) (by linarith) hvt hct
      nlinarith
    · simp only [vwapWalk, if_neg (not_le.mpr hu), if_neg h1]
      nlinarith

theorem lastTouched_le_desc (l : List (ℚ × ℚ)) :
    ∀ u d : ℚ, (∀ pv ∈ l, pv.1 ≤ d) →
      (l.Pairwise fun a b => b.1 ≤ a.1) → lastTouched l u d ≤ d := by
  induction l with
  | nil =>
    intro u d _ _
    simp [lastTouched]
  | cons hd tl ih =>
    intro u d hdle hpair
    obtain ⟨p, v⟩ := hd
    have hdp : p ≤ d := hdle (p, v) (List.mem_cons_self _ _)
    rw [List.pairwise_cons] at hpair
    by_cases h0 : u ≤ 0
    · simp [lastTouched, if_pos h0]
    · by_cases h1 : v < u
      · simp only [lastTouched, if_neg h0, if_pos h1]
        exact (ih (u - v) p (fun pv hpv => hpair.1 pv hpv) hpair.2).trans hdp
      · simp only [lastTouched, if_neg h0, if_neg h1]
        exact hdp

theorem vwapWalk_cost_lower_desc (l : List (ℚ × ℚ)) :
    ∀ u d : ℚ, 0 < u → u ≤ totalDepth l → (∀ pv ∈ l, 0 ≤ pv.2) →
      (l.Pairwise fun a b => b.1 ≤ a.1) →
      lastTouched l u d * u ≤ (vwapWalk l u).1 := by
  induction l with
  | nil =>
    intro u d hu hd _ _
    simp only [totalDepth] at hd
    linarith
  | cons hd tl ih =>
    intro u d hu hdep hv hpair
    obtain ⟨p, v⟩ := hd
    have hv0 : 0 ≤ v := hv (p, v) (List.mem_cons_self _ _)
    have hvt : ∀ pv ∈ tl, 0 ≤ pv.2 := fun pv hpv => hv pv (List.mem_cons_of_mem _ hpv)
    rw [List.pairwise_cons] at hpair
    simp only [totalDepth] at hdep
    by_cases h1 : v < u
    · simp only [vwapWalk, lastTouched, if_neg (not_le.mpr hu), if_pos h1]
      have hpL : lastTouched tl (u - v) p ≤ p :=
        lastTouched_le_desc tl (u - v) p (fun pv hpv => hpair.1 pv hpv) hpair.2
      have ihr := ih (u - v) p (by linarith) (by linarith) hvt hpair.2
      nlinarith
    · simp only [vwapWalk, lastTouched, if_neg (not_le.mpr hu), if_neg h1]
      exact le_refl _

theorem headI_le_of_pairwise (l : List (ℚ × ℚ)) (hne : l ≠ [])
    (hpair : l.Pairwise fun x y => x.1 ≤ y.1) : ∀ pv ∈ l, l.headI.1 ≤ pv.1 := by
  cases l with
  | nil => exact absurd rfl hne
  | cons hd tl =>
    rw [List.pairwise_cons] at hpair
    intro pv hpv
    rcases List.mem_cons.mp hpv with h | h
    · rw [h, List.headI]
    · exact hpair.1 pv h

theorem le_headI_of_pairwise (l : List (ℚ × ℚ)) (hne : l ≠ [])
    (hpair : l.Pairwise fun x y => y.1 ≤ x.1) : ∀ pv ∈ l, pv.1 ≤ l.headI.1 := by
  cases l with
  | nil => exact absurd rfl hne
  | cons hd tl =>
    rw [List.pairwise_cons] at hpair
    intro pv hpv
    rcases List.mem_cons.mp hpv with h | h
    · rw [h, List.headI]
    · exact hpair.1 pv h

/-- The scenario ask ladder of claim C5: levels (price 10, volume 100) and
    (price 11, volume 200). -/
def c5book : Book := ⟨[(10, 100), (11, 200)], [], 0, 0, CAD⟩

/-- A bid-side book with descending prices, used to witness the sell side. -/
def c5bidbook : Book := ⟨[], [(11, 100), (10, 200)], 0, 0, CAD⟩

/-- C5: with no fee, calculate_vwap_market_price fails (None) exactly when the
    requested quantity exceeds the depth of the consumed side; on success the
    price lies between the first and the last level price consumed (asks
    ascending for a buy, bids descending for a sell); on the scenario ladder,
    buying 150 gives (10*100+11*50)/150 = 31/3 and buying 301 fails. -/
theorem c5_vwap_no_fee :
    (∀ (b : Book) (q : ℚ) (act : Action), 0 < q → (∀ pv ∈ sideOf b act, 0 ≤ pv.2) →
      (calculate_vwap_market_price b q act false = none ↔ totalDepth (sideOf b act) < q)) ∧
    (∀ (b : Book) (q : ℚ), 0 < q → (∀ pv ∈ b.asks, 0 ≤ pv.2) → q ≤ totalDepth b.asks →
      (b.asks.Pairwise fun x y => x.1 ≤ y.1) →
      ∃ w, calculate_vwap_market_price b q .buy false = some w ∧
        b.asks.headI.1 ≤ w ∧ w ≤ lastTouched b.asks q 0) ∧
    (∀ (b : Book) (q : ℚ), 0 < q → (∀ pv ∈ b.bids, 0 ≤ pv.2) → q ≤ totalDepth b.bids →
      (b.bids.Pairwise fun x y => y.1 ≤ x.1) →
      ∃ w, calculate_vwap_market_price b q .sell false = some w ∧
        lastTouched b.bids q 0 ≤ w ∧ w ≤ b.bids.headI.1) ∧
    calculate_vwap_market_price c5book 150 .buy false = some (31 / 3) ∧
    calculate_vwap_market_price c5book 301 .buy false = none := by
  refine ⟨?_, ?_, ?_, ?_, ?_⟩
  · intro b q act hq hv
    rw [show calculate_vwap_market_price b q act false
        = (if (vwapWalk (sideOf b act) q).2 > 0 then none
           else some ((vwapWalk (sideOf b act) q).1 / q)) from rfl]
    rw [← vwapWalk_snd_pos_iff (sideOf b act) q hq.le hv]
    by_cases h : (vwapWalk (sideOf b act) q).2 > 0
    · simp [h]
    · simp [h]
  · intro b q hq hv hdep hpair
    have hnone : ¬ (vwapWalk b.asks q).2 > 0 := by
      rw [vwapWalk_snd_pos_iff b.asks q hq.le hv]
      exact not_lt.mpr hdep
    have hne : b.asks ≠ [] := by
      intro h
      rw [h] at hdep
      simp only [totalDepth] at hdep
      linarith
    have hhead : ∀ pv ∈ b.asks, b.asks.headI.1 ≤ pv.1 :=
      headI_le_of_pairwise b.asks hne hpair
    refine ⟨(vwapWalk b.asks q).1 / q, ?_, ?_, ?_⟩
    · rw [show calculate_vwap_market_price b q .buy false
          = (if (vwapWalk b.asks q).2 > 0 then none
             else some ((vwapWalk b.asks q).1 / q)) from rfl]
      rw [if_neg hnone]
    · rw [le_div_iff₀ hq]
      exact vwapWalk_cost_lower b.asks q b.asks.headI.1 hq hdep hv hhead
    · rw [div_le_iff₀ hq]
      exact vwapWalk_cost_upper b.asks q 0 hq hdep hv hpair
  · intro b q hq hv hdep hpair
    have hnone : ¬ (vwapWalk b.bids q).2 > 0 := by
      rw [vwapWalk_snd_pos_iff b.bids q hq.le hv]
      exact not_lt.mpr hdep
    have hne : b.bids ≠ [] := by
      intro h
      rw [h] at hdep
      simp only [totalDepth] at hdep
      linarith
    have hhead : ∀ pv ∈ b.bids, pv.1 ≤ b.bids.headI.1 :=
      le_headI_of_pairwise b.bids hne hpair
    refine ⟨(vwapWalk b.bids q).1 / q, ?_, ?_, ?_⟩
    · rw [show calculate_vwap_market_price b q .sell false
          = (if (vwapWalk b.bids q).2 > 0 then none
             else some ((vwapWalk b.bids q).1 / q)) from rfl]
      rw [if_neg hnone]
    · rw [le_div_iff₀ hq]
      exact vwapWalk_cost_lower_desc b.bids q 0 hq hdep hv hpair
    · rw [div_le_iff₀ hq]
      exact vwapWalk_cost_upper_desc b.bids q b.bids.headI.1 hq hdep hv hhead
  · norm_num [calculate_vwap_market_price, sideOf, c5book, vwapWalk]
  · norm_num [calculate_vwap_market_price, sideOf, c5book, vwapWalk]

/-- C5 witness: the general parts of the theorem instantiated on the concrete
    scenario ladder and a concrete bid ladder. -/
theorem c5_witness :
    (calculate_vwap_market_price c5book 301 .buy false = none ↔
      totalDepth (sideOf c5book .buy) < 301) ∧
    (∃ w, calculate_vwap_market_price c5book 150 .buy false = some w ∧
      (c5book.asks).headI.1 ≤ w ∧ w ≤ lastTouched c5book.asks 150 0) ∧
    (∃ w, calculate_vwap_market_price c5bidbook 150 .sell false = some w ∧
      lastTouched c5bidbook.bids 150 0 ≤ w ∧ w ≤ (c5bidbook.bids).headI.1) := by
  refine ⟨c5_vwap_no_fee.1 c5book 301 .buy (by norm_num) ?_,
          c5_vwap_no_fee.2.1 c5book 150 (by norm_num) ?_ ?_ ?_,
          c5_vwap_no_fee.2.2.1 c5bidbook 150 (by norm_num) ?_ ?_ ?_⟩
  · intro pv hpv
    simp only [sideOf, c5book] at hpv
    rcases List.mem_cons.mp hpv with h | h
    · rw [h]; norm_num
    · simp only [List.mem_singleton] at h
      rw [h]; norm_num
  · intro pv hpv
    simp only [c5book] at hpv
    rcases List.mem_cons.mp hpv with h | h
    · rw [h]; norm_num
    · simp only [List.mem_singleton] at h
      rw [h]; norm_num
  · norm_num [c5book, totalDepth]
  · norm_num [c5book, List.pairwise_cons]
  · intro pv hpv
    simp only [c5bidbook] at hpv
    rcases List.mem_cons.mp hpv with h | h
    · rw [h]; norm_num
    · simp only [List.mem_singleton] at h
      rw [h]; norm_num
  · norm_num [c5bidbook, totalDepth]
  · norm_num [c5bidbook, List.pairwise_cons]

/-- ExtendOrderBook.calculate_total_profit. For a market order it re-derives
    the VWAP with cost: a None VWAP is then multiplied by the volume, which
    raises TypeError; for a limit order a None price likewise raises when the
    fee is added. The raise is the error value, a normal return is ok. -/
def calculate_total_profit (b : Book) (trade_volume : ℚ) (order_type : OrderType)
    (action : Action) (price : Option ℚ) : Except PyExn ℚ :=
  match order_type with
  | .market =>
    match calculate_vwap_market_price b trade_volume action true with
    | none => .error .typeError
    | some p => .ok (p * trade_volume)
  | .limit =>
    match price with
    | none => .error .typeError
    | some pr =>
      if action = .buy then .ok ((pr + b.transaction_fee - b.rebate_fee) * trade_volume)
      else .ok ((pr - b.transaction_fee + b.rebate_fee) * trade_volume)

/-- C10: calculate_total_profit with a market order is not total: whenever the
    consumed side holds less volume than requested, the internal VWAP is None
    and the call raises TypeError instead of returning a failure value. -/
theorem c10_total_profit_raises (b : Book) (q : ℚ) (action : Action) (price : Option ℚ)
    (hv : ∀ pv ∈ sideOf b action, 0 ≤ pv.2)
    (hdep : totalDepth (sideOf b action) < q) :
    calculate_vwap_market_price b q action true = none ∧
    calculate_total_profit b q .market action price = .error .typeError := by
  have hq : 0 ≤ q := le_of_lt (lt_of_le_of_lt (totalDepth_nonneg _ hv) hdep)
  have hpos : (vwapWalk (sideOf b action) q).2 > 0 :=
    (vwapWalk_snd_pos_iff (sideOf b action) q hq hv).mpr hdep
  have hnone : calculate_vwap_market_price b q action true = none := by
    simp only [calculate_vwap_market_price]
    rw [if_pos hpos]
  refine ⟨hnone, ?_⟩
  simp only [calculate_total_profit]
  rw [hnone]

/-- C10 witness: a one-level ask book of depth 1 bought for 5. -/
theorem c10_witness :
    calculate_vwap_market_price (Book.mk [(10, 1)] [] 0 0 CAD) 5 .buy true = none ∧
    calculate_total_profit (Book.mk [(10, 1)] [] 0 0 CAD) 5 .market .buy none
      = .error .typeError := by
  refine c10_total_profit_raises (Book.mk [(10, 1)] [] 0 0 CAD) 5 .buy none ?_ ?_
  · intro pv hpv
    simp only [sideOf, List.mem_singleton] at hpv
    rw [hpv]
    norm_num
  · norm_num [sideOf, totalDepth]

/-! ## ETFArbitrageStrategy.tender_signal2 (src/ALGO/ArbitrageStrategy.py) -/

/-- ETFArbitrageStrategy.tender_signal2: the unwind side is buy for a sell
    tender and sell for a buy tender; the VWAP is computed with cost; a None
    VWAP would raise a TypeError in the subtraction (modelled none). The edge
    compared to the threshold is per share, not multiplied by the volume. -/
def tender_signal2 (tender_action : Action) (tender_price tender_volume : ℚ)
    (order_book : Book) (buy_threshold sell_threshold : ℚ) : Option (ℤ × ℚ) :=
  let myaction := if tender_action = .sell then Action.buy else Action.sell
  match calculate_vwap_market_price order_book tender_volume myaction true with
  | none => none
  | some vwap =>
    if tender_action = .buy then
      if tender_price - vwap > buy_threshold then some (1, tender_price - vwap)
      else some (0, 0)
    else
      if vwap - tender_price > sell_threshold then some (1, vwap - tender_price)
      else some (0, 0)

/-- The order book of the C7 scenario: enough ask depth at price 9, no fee, so
    the buy-side unwind VWAP for volume 1000 is exactly 9. -/
def c7book : Book := ⟨[(9, 1000)], [], 0, 0, CAD⟩

/-- C7 counterexample: on the scenario of the claim (sell tender, price 9.5,
    volume 1000, unwind VWAP 9, threshold 200) the code returns the reject
    signal (0, 0), not the accept signal 1 with edge 500. -/
theorem c7_counterexample :
    calculate_vwap_market_price c7book 1000 .buy true = some 9 ∧
    tender_signal2 .sell (19 / 2) 1000 c7book 200 200 = some (0, 0) ∧
    ¬ tender_signal2 .sell (19 / 2) 1000 c7book 200 200 = some (1, 500) := by
  refine ⟨?_, ?_, ?_⟩ <;>
    norm_num [tender_signal2, calculate_vwap_market_price, sideOf, c7book, vwapWalk,
      Prod.ext_iff]

/-- C7 (amended): on the scenario the signal is reject: tender_signal2 compares
    the per-share difference vwap - tender_price (here 9 - 9.5 = -1/2) with the
    sell threshold, so the volume-scaled edge 500 never enters and the result
    is (0, 0); it would accept only if vwap - tender_price exceeded the
    threshold. -/
theorem c7_tender_signal_rejects :
    calculate_vwap_market_price c7book 1000 .buy true = some 9 ∧
    (9 : ℚ) - 19 / 2 = -(1 / 2) ∧
    ¬ ((9 : ℚ) - 19 / 2 > 200) ∧
    tender_signal2 .sell (19 / 2) 1000 c7book 200 200 = some (0, 0) := by
  refine ⟨?_, ?_, ?_, ?_⟩ <;>
    norm_num [tender_signal2, calculate_vwap_market_price, sideOf, c7book, vwapWalk]

/-! ## Portfolio position limits and batch compression (src/RITC/base/Portfolio.py) -/

/-- An Asset restricted to the fields the limit checks read. -/
structure PAsset where
  volume : ℤ
  gross_limit : ℚ
  net_limit : ℚ
deriving DecidableEq, Repr

/-- A Portfolio restricted to the fields the limit checks read. gross_position
    and net_position are the cached fields read by the bulk checks and by
    adjust_position (refreshed elsewhere from the venue snapshot). -/
structure PortfolioSt where
  assets : List (String × PAsset)
  gross_limit : ℚ
  net_limit : ℚ
  max_usage : ℚ
  gross_position : ℚ
  net_position : ℚ

/-- Portfolio.check_portfolio_limits: recomputes gross and net from the asset
    volumes with the proposed delta applied to the named asset. -/
def check_portfolio_limits (P : PortfolioSt) (asset_name : String) (volume : ℤ) : Bool :=
  let gp : ℚ := (P.assets.map (fun na =>
      if na.1 = upper asset_name then |((na.2.volume + volume : ℤ) : ℚ)|
      else |(na.2.volume : ℚ)|)).sum
  let np : ℚ := (P.assets.map (fun na =>
      if na.1 = upper asset_name then ((na.2.volume + volume : ℤ) : ℚ)
      else (na.2.volume : ℚ))).sum
  if gp > P.gross_limit * P.max_usage then true
  else if |np| > P.net_limit * P.max_usage then true
  else false

/-- Portfolio.check_limits: the per-instrument check; note the first condition
    adds the signed delta, not its absolute value, to the absolute volume. A
    missing asset name raises KeyError (none). -/
def check_limits (P : PortfolioSt) (asset_name : String) (volume : ℤ) : Option Bool :=
  match alookup asset_name P.assets with
  | none => none
  | some a =>
    if |(a.volume : ℚ)| + (volume : ℚ) > a.gross_limit * P.max_usage then some true
    else if |((a.volume + volume : ℤ) : ℚ)| > a.net_limit * P.max_usage then some true
    else if check_portfolio_limits P asset_name volume then some true
    else some false

/-- Portfolio.check_bulk_limits: True at the first violating entry; falling off
    the loop returns Python None, which the only caller treats as false. -/
def check_bulk_limits (P : PortfolioSt) : List (String × ℤ) → Option Bool
  | [] => some false
  | (n, q) :: rest =>
    match check_limits P n q with
    | none => none
    | some true => some true
    | some false => check_bulk_limits P rest

/-- The loop of Portfolio.adjust_position that totals the gross contribution of
    the proposed deltas: +|q| when the delta has the same sign as the current
    volume, otherwise -|q| (a delta on a zero position therefore counts as
    exposure-reducing). -/
def totalGrossDelta (P : PortfolioSt) : List (String × ℤ) → Option ℚ
  | [] => some 0
  | (n, q) :: rest =>
    match alookup n P.assets with
    | none => none
    | some a =>
      match totalGrossDelta P rest with
      | none => none
      | some t =>
        some (t + if (q : ℚ) * (a.volume : ℚ) > 0 then |(q : ℚ)| else -|(q : ℚ)|)

/-- The ratio assignment block of Portfolio.adjust_position (the local variable
    ratio): bounded by the net-limit headroom when the proposed total and the
    cached net position share a sign, by the crossing bound when they oppose
    and the result would cross the cap, and 1 otherwise. -/
def net_scale_bound (net max_net total_net : ℚ) : ℚ :=
  if total_net * net > 0 then
    min ((max_net - |net|) / |total_net|) 1
  else if |net + total_net| > max_net then
    min ((|max_net| + |net|) / |total_net|) 1
  else 1

/-- Portfolio.adjust_position: the single scaling ratio. Returns 0 when the
    cached positions already break the caps, otherwise bounds the ratio by the
    net headroom and then by the gross headroom. -/
def adjust_position (P : PortfolioSt) (aq : List (String × ℤ)) : Option ℚ :=
  let max_gross := P.gross_limit * P.max_usage
  let max_net := P.net_limit * P.max_usage
  if |P.net_position| > max_net ∨ P.gross_position > max_gross then some 0
  else
    let total_net : ℚ := (((aq.map Prod.snd).sum : ℤ) : ℚ)
    let r0 : ℚ := net_scale_bound P.net_position max_net total_net
    match totalGrossDelta P aq with
    | none => none
    | some tg =>
      some (if tg > max_gross - P.gross_position then
              min r0 ((max_gross - P.gross_position) / tg)
            else r0)

/-- Portfolio.compress_position: compliant batches are returned unchanged,
    otherwise every delta is scaled by the adjust_position ratio and truncated
    toward zero by int(). -/
def compress_position (P : PortfolioSt) (aq : List (String × ℤ)) :
    Option (List (String × ℤ)) :=
  match check_bulk_limits P aq with
  | some false => some aq
  | some true =>
    match adjust_position P aq with
    | none => none
    | some r => some (aq.map (fun nq => (nq.1, truncQ (r * (nq.2 : ℚ)))))
  | none => none

/-- Gross exposure after applying a batch of deltas, measured as
    check_portfolio_limits measures it (sum of absolute resulting volumes). -/
def resulting_gross (P : PortfolioSt) (deltas : List (String × ℤ)) : ℚ :=
  (P.assets.map (fun na =>
    |((na.2.volume + (alookup na.1 deltas).getD 0 : ℤ) : ℚ)|)).sum

/-- The per-instrument limit predicate as the specification words it: a gross
    violation when |volume| + |delta| exceeds the gross cap, a net violation
    when |volume + delta| exceeds the net cap. Stated from the spec sentence
    for comparison with check_limits. -/
def check_limits_spec (a : PAsset) (usage : ℚ) (volume : ℤ) : Bool :=
  if |(a.volume : ℚ)| + |(volume : ℚ)| > a.gross_limit * usage then true
  else if |((a.volume + volume : ℤ) : ℚ)| > a.net_limit * usage then true
  else false

/-- Ticker used in concrete portfolio instances. -/
def TickA : String := "A"

/-- The asset of the C3 failing input: flat position, gross limit 100. -/
def c3asset : PAsset := ⟨0, 100, 1000000⟩

/-- The portfolio of the C3 failing input: one asset, loose portfolio caps. -/
def c3portfolio : PortfolioSt := ⟨[(TickA, c3asset)], 1000000, 1000000, 1, 0, 0⟩

/-- C3: on a flat position with gross cap 100, a sell delta of -500 is a gross
    violation under the claimed predicate |volume| + |delta|, but check_limits
    adds the signed delta (line 578 has no abs on volume) and reports no
    violation: the code disagrees with the claim on every negative delta large
    enough to matter. -/
theorem c3_gross_check_signed :
    check_limits_spec c3asset 1 (-500) = true ∧
    check_limits c3portfolio TickA (-500) = some false := by
  constructor
  · norm_num [check_limits_spec, c3asset]
  · have hup : upper TickA = TickA := by decide
    norm_num [check_limits, check_portfolio_limits, c3portfolio, c3asset, alookup, hup]

/-- The ratio block always yields a value in the unit interval when the cached
    net position is within the cap. -/
theorem net_scale_bound_unit (net mn tn : ℚ) (hnet : |net| ≤ mn) :
    0 ≤ net_scale_bound net mn tn ∧ net_scale_bound net mn tn ≤ 1 := by
  unfold net_scale_bound
  split_ifs with ha hb
  · exact ⟨le_min (div_nonneg (by linarith) (abs_nonneg _)) zero_le_one,
      min_le_right _ _⟩
  · exact ⟨le_min (div_nonneg (by positivity) (abs_nonneg _)) zero_le_one,
      min_le_right _ _⟩
  · exact ⟨zero_le_one, le_refl 1⟩

/-- Scaling by any ratio below the net bound of adjust_position keeps the exact
    scaled net position inside the cap. -/
theorem scale_net_bound (net tn mn r : ℚ) (hnet : |net| ≤ mn) (h0 : 0 ≤ r)
    (hr : r ≤ net_scale_bound net mn tn) :
    |net + r * tn| ≤ mn := by
  have hmn : 0 ≤ mn := le_trans (abs_nonneg net) hnet
  unfold net_scale_bound at hr
  split_ifs at hr with h1 h2
  · have htn : tn ≠ 0 := by
      intro h
      rw [h] at h1
      simp at h1
    have habs : 0 < |tn| := abs_pos.mpr htn
    have hra : r ≤ (mn - |net|) / |tn| := le_trans hr (min_le_left _ _)
    have hb : r * |tn| ≤ mn - |net| := by
      rw [← le_div_iff₀ habs]
      exact hra
    calc |net + r * tn| ≤ |net| + |r * tn| := abs_add _ _
      _ = |net| + r * |tn| := by rw [abs_mul, abs_of_nonneg h0]
      _ ≤ mn := by linarith
  · have htn : tn ≠ 0 := by
      intro h
      rw [h] at h2
      simp at h2
      linarith
    have habs : 0 < |tn| := abs_pos.mpr htn
    have hmabs : |mn| = mn := abs_of_nonneg hmn
    have hra : r ≤ (mn + |net|) / |tn| := by
      rw [hmabs] at hr
      exact le_trans hr (min_le_left _ _)
    have hb : r * |tn| ≤ mn + |net| := by
      rw [← le_div_iff₀ habs]
      exact hra
    have hns : tn * net ≤ 0 := not_lt.mp h1
    rw [abs_le]
    rw [abs_le] at hnet
    rcases lt_trichotomy tn 0 with ht | ht | ht
    · have hnn : 0 ≤ net := by nlinarith
      have h_tn_abs : |tn| = -tn := abs_of_neg ht
      have h_net_abs : |net| = net := abs_of_nonneg hnn
      rw [h_tn_abs, h_net_abs] at hb
      have hrt : r * tn ≤ 0 := mul_nonpos_of_nonneg_of_nonpos h0 ht.le
      constructor
      · nlinarith
      · linarith
    · exact absurd ht htn
    · have hnn : net ≤ 0 := by nlinarith
      have h_tn_abs : |tn| = tn := abs_of_pos ht
      have h_net_abs : |net| = -net := abs_of_nonpos hnn
      rw [h_tn_abs, h_net_abs] at hb
      have hrt : 0 ≤ r * tn := mul_nonneg h0 ht.le
      constructor
      · linarith
      · nlinarith
  · have hr1 : r ≤ 1 := hr
    push_neg at h2
    have hconv : net + r * tn = (1 - r) * net + r * (net + tn) := by ring
    rw [hconv]
    calc |(1 - r) * net + r * (net + tn)|
        ≤ |(1 - r) * net| + |r * (net + tn)| := abs_add _ _
      _ = (1 - r) * |net| + r * |net + tn| := by
          rw [abs_mul, abs_mul, abs_of_nonneg (by linarith : (0:ℚ) ≤ 1 - r),
            abs_of_nonneg h0]
      _ ≤ mn := by nlinarith

/-- The ratio returned by adjust_position always lies in the unit interval. -/
theorem adjust_position_unit (P : PortfolioSt) (aq : List (String × ℤ)) (r : ℚ)
    (h : adjust_position P aq = some r) : 0 ≤ r ∧ r ≤ 1 := by
  simp only [adjust_position] at h
  split_ifs at h with hpre
  · obtain rfl : (0 : ℚ) = r := Option.some.inj h
    norm_num
  · push_neg at hpre
    obtain ⟨hnet, hgross2⟩ := hpre
    rcases htg : totalGrossDelta P aq with _ | tg
    · rw [htg] at h
      exact absurd h (by simp)
    · rw [htg] at h
      have hr := Option.some.inj h
      have hr0 := net_scale_bound_unit P.net_position (P.net_limit * P.max_usage)
        (((aq.map Prod.snd).sum : ℤ) : ℚ) hnet
      rw [← hr]
      split_ifs with hc
      · refine ⟨le_min hr0.1 ?_, le_trans (min_le_left _ _) hr0.2⟩
        refine div_nonneg (by linarith) ?_
        linarith
      · exact hr0

/-- Below both caps on entry, the exact (un-truncated) scaled total keeps the
    cached net position within the net cap. -/
theorem adjust_position_net (P : PortfolioSt) (aq : List (String × ℤ)) (r : ℚ)
    (hnet : |P.net_position| ≤ P.net_limit * P.max_usage)
    (_hgross : P.gross_position ≤ P.gross_limit * P.max_usage)
    (h : adjust_position P aq = some r) :
    |P.net_position + r * (((aq.map Prod.snd).sum : ℤ) : ℚ)|
      ≤ P.net_limit * P.max_usage := by
  have hu := adjust_position_unit P aq r h
  simp only [adjust_position] at h
  split_ifs at h with hpre
  · obtain rfl : (0 : ℚ) = r := Option.some.inj h
    simpa using hnet
  · rcases htg : totalGrossDelta P aq with _ | tg
    · rw [htg] at h
      exact absurd h (by simp)
    · rw [htg] at h
      have hr := Option.some.inj h
      have hrR : r ≤ net_scale_bound P.net_position (P.net_limit * P.max_usage)
          (((aq.map Prod.snd).sum : ℤ) : ℚ) := by
        rw [← hr]
        split_ifs with hc
        · exact min_le_left _ _
        · exact le_refl _
      exact scale_net_bound P.net_position (((aq.map Prod.snd).sum : ℤ) : ℚ)
        (P.net_limit * P.max_usage) r hnet hu.1 hrR

/-- The portfolio of the C1 counterexample: one flat asset with loose per-asset
    caps, portfolio gross cap 100, loose net cap, consistent cached positions. -/
def c1portfolio : PortfolioSt := ⟨[(TickA, ⟨0, 1000000, 1000000⟩)], 100, 1000000, 1, 0, 0⟩

/-- C1 counterexample: with current positions well inside the caps, the batch
    +500 on a flat asset fails the bulk check, yet compress_position returns it
    unchanged (ratio 1): the gross loop counts a delta on a zero position as
    exposure-reducing, so the resulting gross exposure 500 breaks the cap 100,
    refuting the claimed gross bound. -/
theorem c1_counterexample :
    |c1portfolio.net_position| ≤ c1portfolio.net_limit * c1portfolio.max_usage ∧
    c1portfolio.gross_position ≤ c1portfolio.gross_limit * c1portfolio.max_usage ∧
    check_bulk_limits c1portfolio [(TickA, 500)] = some true ∧
    compress_position c1portfolio [(TickA, 500)] = some [(TickA, 500)] ∧
    resulting_gross c1portfolio [(TickA, 500)] = 500 ∧
    ¬ resulting_gross c1portfolio [(TickA, 500)]
        ≤ c1portfolio.gross_limit * c1portfolio.max_usage := by
  have hup : upper TickA = TickA := by decide
  have hbulk : check_bulk_limits c1portfolio [(TickA, 500)] = some true := by
    norm_num [check_bulk_limits, check_limits, check_portfolio_limits, c1portfolio,
      alookup, hup]
  have hadj : adjust_position c1portfolio [(TickA, 500)] = some 1 := by
    norm_num [adjust_position, net_scale_bound, totalGrossDelta, c1portfolio, alookup]
  refine ⟨by norm_num [c1portfolio], by norm_num [c1portfolio], hbulk, ?_, ?_, ?_⟩
  · rw [show compress_position c1portfolio [(TickA, 500)]
        = (match check_bulk_limits c1portfolio [(TickA, 500)] with
           | some false => some [(TickA, 500)]
           | some true =>
             match adjust_position c1portfolio [(TickA, 500)] with
             | none => none
             | some r => some ([(TickA, 500)].map
                 (fun nq => (nq.1, truncQ (r * (nq.2 : ℚ)))))
           | none => none) from rfl]
    rw [hbulk, hadj]
    norm_num [truncQ]
  · norm_num [resulting_gross, c1portfolio, alookup]
  · norm_num [resulting_gross, c1portfolio, alookup]

/-- C1 (amended): compress_position returns the batch unchanged when the bulk
    checks pass; otherwise every delta is scaled by the one adjust_position
    ratio, which lies in the unit interval, and truncated toward zero (never
    past the exact scaled value); with the cached positions inside the caps,
    the exact (un-truncated) scaled batch keeps the net position within the
    net cap. The claimed resulting gross bound, and the net bound after
    integer truncation, do not hold (see the counterexample). -/
theorem c1_compress_amended :
    (∀ (P : PortfolioSt) (aq : List (String × ℤ)),
      check_bulk_limits P aq = some false → compress_position P aq = some aq) ∧
    (∀ (P : PortfolioSt) (aq : List (String × ℤ)) (r : ℚ),
      check_bulk_limits P aq = some true → adjust_position P aq = some r →
      compress_position P aq
        = some (aq.map (fun nq => (nq.1, truncQ (r * (nq.2 : ℚ)))))) ∧
    (∀ (P : PortfolioSt) (aq : List (String × ℤ)) (r : ℚ),
      adjust_position P aq = some r → 0 ≤ r ∧ r ≤ 1) ∧
    (∀ x : ℚ, |((truncQ x : ℤ) : ℚ)| ≤ |x| ∧
      (0 ≤ x → 0 ≤ truncQ x ∧ ((truncQ x : ℤ) : ℚ) ≤ x) ∧
      (x ≤ 0 → truncQ x ≤ 0 ∧ x ≤ ((truncQ x : ℤ) : ℚ))) ∧
    (∀ (P : PortfolioSt) (aq : List (String × ℤ)) (r : ℚ),
      |P.net_position| ≤ P.net_limit * P.max_usage →
      P.gross_position ≤ P.gross_limit * P.max_usage →
      adjust_position P aq = some r →
      |P.net_position + r * (((aq.map Prod.snd).sum : ℤ) : ℚ)|
        ≤ P.net_limit * P.max_usage) := by
  refine ⟨?_, ?_, ?_, ?_, ?_⟩
  · intro P aq hb
    unfold compress_position
    rw [hb]
  · intro P aq r hb ha
    unfold compress_position
    rw [hb, ha]
  · exact adjust_position_unit
  · intro x
    unfold truncQ
    by_cases hx : 0 ≤ x
    · rw [if_pos hx]
      have hfl : (0 : ℤ) ≤ ⌊x⌋ := Int.floor_nonneg.mpr hx
      refine ⟨?_, fun _ => ⟨hfl, Int.floor_le x⟩, fun hx0 => ?_⟩
      · rw [abs_of_nonneg hx, abs_of_nonneg (by exact_mod_cast hfl)]
        exact Int.floor_le x
      · have hx00 : x = 0 := le_antisymm hx0 hx
        rw [hx00]
        norm_num
    · rw [if_neg hx]
      push_neg at hx
      have hcl : ⌈x⌉ ≤ 0 := Int.ceil_le.mpr (by exact_mod_cast hx.le)
      refine ⟨?_, fun hx0 => absurd hx0 (not_le.mpr hx), fun _ => ⟨hcl, Int.le_ceil x⟩⟩
      rw [abs_of_nonpos hx.le, abs_of_nonpos (by exact_mod_cast hcl)]
      have := Int.le_ceil x
      linarith
  · exact adjust_position_net

/-- C1 witness: the amended theorem instantiated on the counterexample
    portfolio (identity on a compliant batch, unit ratio, truncation and the
    exact net bound on the concrete non-compliant batch). -/
theorem c1_witness :
    compress_position c1portfolio [(TickA, 50)] = some [(TickA, 50)] ∧
    (0 ≤ (1 : ℚ) ∧ (1 : ℚ) ≤ 1) ∧
    |((truncQ (3 / 2) : ℤ) : ℚ)| ≤ |(3 / 2 : ℚ)| ∧
    |c1portfolio.net_position + 1 * ((([(TickA, 500)].map Prod.snd).sum : ℤ) : ℚ)|
      ≤ c1portfolio.net_limit * c1portfolio.max_usage := by
  have hup : upper TickA = TickA := by decide
  have hbulk : check_bulk_limits c1portfolio [(TickA, 50)] = some false := by
    norm_num [check_bulk_limits, check_limits, check_portfolio_limits, c1portfolio,
      alookup, hup]
  have hadj : adjust_position c1portfolio [(TickA, 500)] = some 1 := by
    norm_num [adjust_position, net_scale_bound, totalGrossDelta, c1portfolio, alookup]
  refine ⟨c1_compress_amended.1 c1portfolio [(TickA, 50)] hbulk,
    c1_compress_amended.2.2.1 c1portfolio [(TickA, 500)] 1 hadj,
    (c1_compress_amended.2.2.2.1 (3 / 2)).1,
    c1_compress_amended.2.2.2.2 c1portfolio [(TickA, 500)] 1
      (by norm_num [c1portfolio]) (by norm_num [c1portfolio]) hadj⟩

/-! ## ApiTrading.place_order local validation (src/base/ApiTrading.py) -/

/-- An asset as read by the validation in place_order. -/
structure TAsset where
  volume : ℤ
  maximum_trade_size : ℤ
  is_shortable : Bool
  is_tradeable : Bool
deriving DecidableEq, Repr

/-- The outcome of the local validation of place_order: fail models the -1
    returned before any network call, submit q the POST of a payload with the
    final clipped quantity q. -/
inductive PlaceResult where
  | fail
  | submit (quantity : ℤ)
deriving DecidableEq, Repr

/-- ApiTrading.place_order up to the network call: rejects a zero quantity and
    a non-tradeable asset; for a non-shortable sell it fails on a negative
    position and clips the quantity to the position when volume + quantity < 0
    (the signed sum, not volume - quantity); finally clips to the maximum
    trade size. -/
def place_order (a : TAsset) (quantity : ℤ) (action : Action) : PlaceResult :=
  if quantity = 0 then .fail
  else if a.is_tradeable = false then .fail
  else if a.is_shortable = false ∧ action = .sell ∧ a.volume < 0 then .fail
  else
    let q1 := if a.is_shortable = false ∧ action = .sell ∧ a.volume + quantity < 0
              then a.volume else quantity
    let q2 := if q1 > a.maximum_trade_size then a.maximum_trade_size else q1
    .submit q2

/-- C4 counterexample: a non-shortable, tradeable asset holding 10 shares with a
    sell of 50 - a quantity that flips the resulting position to -40 - is
    submitted with quantity 50, not clipped to the long position 10: the guard
    compares volume + quantity, which a positive sell quantity never makes
    negative. -/
theorem c4_counterexample :
    (10 : ℤ) - 50 < 0 ∧
    place_order (TAsset.mk 10 1000000 false true) 50 .sell = .submit 50 ∧
    ¬ place_order (TAsset.mk 10 1000000 false true) 50 .sell = .submit 10 := by
  refine ⟨by norm_num, ?_, ?_⟩ <;> norm_num [place_order]

/-- C4 (amended): for a non-shortable, tradeable asset, a sell on a negative
    position fails fast with no network call; the clip to the long position p
    fires only when p + quantity < 0, i.e. for a quantity passed as a negative
    signed value, and then the submitted quantity is exactly p provided p does
    not exceed the maximum trade size; a positive sell quantity is never
    clipped by this guard. -/
theorem c4_place_order_clip :
    (∀ (a : TAsset) (q : ℤ), a.is_tradeable = true → a.is_shortable = false →
      a.volume < 0 → q ≠ 0 → place_order a q .sell = .fail) ∧
    (∀ (a : TAsset) (q : ℤ), a.is_tradeable = true → a.is_shortable = false →
      0 ≤ a.volume → a.volume + q < 0 → a.volume ≤ a.maximum_trade_size →
      place_order a q .sell = .submit a.volume) ∧
    (∀ (a : TAsset) (q : ℤ), a.is_tradeable = true → a.is_shortable = false →
      0 ≤ a.volume → 0 < q → ¬ a.volume + q < 0) := by
  refine ⟨?_, ?_, ?_⟩
  · intro a q htr hsh hneg hq
    simp [place_order, hq, htr, hsh, hneg]
  · intro a q htr hsh hpos hflip hmax
    have hq : q ≠ 0 := by
      intro h
      rw [h] at hflip
      simp at hflip
      linarith
    have hnneg : ¬ a.volume < 0 := not_lt.mpr hpos
    simp only [place_order, if_neg hq, htr]
    norm_num [hsh, hnneg, hflip, not_lt.mpr hmax]
  · intro a q _ _ hpos hq
    push_neg
    linarith

/-- C4 witness: the amended theorem at concrete assets: position -5 fails; a
    position of 10 with signed quantity -50 submits 10; a positive quantity
    never triggers the clip guard. -/
theorem c4_witness :
    place_order (TAsset.mk (-5) 1000000 false true) 50 .sell = .fail ∧
    place_order (TAsset.mk 10 1000000 false true) (-50) .sell = .submit 10 ∧
    ¬ (10 : ℤ) + 50 < 0 :=
  ⟨c4_place_order_clip.1 (TAsset.mk (-5) 1000000 false true) 50 rfl rfl
      (by norm_num) (by norm_num),
   c4_place_order_clip.2.1 (TAsset.mk 10 1000000 false true) (-50) rfl rfl
      (by norm_num) (by norm_num) (by norm_num),
   c4_place_order_clip.2.2 (TAsset.mk 10 1000000 false true) 50 rfl rfl
      (by norm_num) (by norm_num)⟩

/-! ## ETFArbitrageStrategy conversion signal (src/ALGO/ArbitrageStrategy.py) -/

/-- The dict returned by limit_order_assistant. -/
structure Advice where
  order_type : OrderType
  price : Option ℚ
deriving DecidableEq, Repr

/-- The ladder-accumulation loop of limit_order_assistant that picks the price
    of the last level needed to cover the requested volume. -/
def limitPriceWalk : List (ℚ × ℚ) → ℚ → ℚ → Option ℚ → Option ℚ
  | [], _, _, lp => lp
  | (p, v) :: rest, tv, cum, lp =>
    if cum < tv then limitPriceWalk rest tv (cum + v) (some p) else lp

/-- ExtendOrderBook.limit_order_assistant: reading the head price of an empty
    side raises AttributeError; a falsy VWAP (None or 0.0) makes the slippage
    infinite, forcing the limit branch; otherwise slippage within tolerance
    gives a market order with no price. -/
def limit_order_assistant (b : Book) (trade_volume : ℚ) (side : Action)
    (slippage_tolerance : ℚ) : Except PyExn Advice :=
  let sideList := sideOf b side
  match sideList.head? with
  | none => .error .attributeError
  | some hd =>
    let market_price := hd.1
    let is_market : Bool :=
      match calculate_vwap_market_price b trade_volume side false with
      | some a => if a = 0 then false else decide (|a - market_price| ≤ slippage_tolerance)
      | none => false
    if is_market then .ok ⟨.market, none⟩
    else .ok ⟨.limit, limitPriceWalk sideList trade_volume 0 none⟩

/-- One order dict of the leg list built by calculate_converter_profit. -/
structure Leg where
  ticker : String
  order_type : OrderType
  price : Option ℚ
  quantity : ℚ
  value : ℚ
  value_cad : ℚ
deriving DecidableEq, Repr

/-- Lift an Option to Except, the raise being the given exception. -/
def optToExcept (e : PyExn) : Option α → Except PyExn α
  | none => .error e
  | some a => .ok a

/-- The ticker the ETF leg is recorded under. -/
def ETFstr : String := "ETF"

/-- The ticker of the single basket stock in the concrete C8 instance. -/
def TickS : String := "S"

/-- One iteration of the stock loop of calculate_converter_profit: a missing
    weight raises ValueError, then the order advice, the trade value and its
    conversion to CAD are computed and recorded as a leg. -/
def converter_stock_leg (bank : Rates) (slippage_tolerance quantity : ℚ)
    (action : Action) (weights : List (String × ℚ)) (stock : String) (bk : Book) :
    Except PyExn (ℚ × Leg) := do
  let w ← optToExcept .valueError (alookup stock weights)
  let result ← limit_order_assistant bk quantity action slippage_tolerance
  let number ← calculate_total_profit bk (quantity * w) result.order_type action result.price
  let number_cad ← optToExcept .valueError (if action = .buy then
      currency_value_conversion_targetamount bank CAD bk.currency number
    else currency_value_conversion bank bk.currency CAD number)
  pure (number_cad, ⟨stock, result.order_type, result.price, w * quantity, number,
    number_cad⟩)

/-- The stock loop of calculate_converter_profit in dict (insertion) order,
    accumulating stock_value and the leg list. -/
def converter_stocks (bank : Rates) (slippage_tolerance quantity : ℚ) (action : Action)
    (weights : List (String × ℚ)) : List (String × Book) → Except PyExn (ℚ × List Leg)
  | [] => .ok (0, [])
  | (s, bk) :: rest => do
    let r1 ← converter_stock_leg bank slippage_tolerance quantity action weights s bk
    let r2 ← converter_stocks bank slippage_tolerance quantity action weights rest
    pure (r1.1 + r2.1, r1.2 :: r2.2)

/-- ETFArbitrageStrategy.calculate_converter_profit: action buy prices creating
    the ETF (buy the basket, sell the ETF), sell the redeeming direction; every
    leg value is converted to CAD; the returned pair is (profit, leg list). -/
def calculate_converter_profit (stock_data : List (String × Book))
    (weights : List (String × ℚ)) (etf_data : Book) (quantity convert_fee : ℚ)
    (fee_currency : String) (action : Action) (bank : Rates) (etf_price : Option ℚ)
    (slippage_tolerance : ℚ) : Except PyExn (ℚ × List Leg) := do
  let sv ← converter_stocks bank slippage_tolerance quantity action weights stock_data
  let etf_action := if action = .sell then Action.buy else Action.sell
  let re ← (match etf_price with
    | none => do
      let r ← limit_order_assistant etf_data quantity etf_action slippage_tolerance
      let v ← calculate_total_profit etf_data quantity r.order_type etf_action r.price
      pure (r, v)
    | some p => pure ((⟨.limit, some p⟩ : Advice), p * quantity))
  let etf_value_cad ← optToExcept .valueError (if etf_action = .sell then
      currency_value_conversion bank etf_data.currency CAD re.2
    else currency_value_conversion_targetamount bank CAD etf_data.currency re.2)
  let convert_fee_cad ← optToExcept .valueError
      (currency_value_conversion_targetamount bank CAD fee_currency convert_fee)
  let profit := if action = .buy then etf_value_cad - sv.1 - quantity * convert_fee_cad
                else sv.1 - etf_value_cad - quantity * convert_fee_cad
  pure (profit, sv.2 ++ [⟨ETFstr, re.1.order_type, re.1.price, quantity, re.2,
    etf_value_cad⟩])

/-- ETFArbitrageStrategy.generate_convert_signal: evaluates both directions,
    computes the two threshold signals, and then returns the create result when
    create_threshold > redeem_threshold and the redeem result otherwise. -/
def generate_convert_signal (stock_data : List (String × Book))
    (weights : List (String × ℚ)) (etf_data : Book) (quantity convert_fee : ℚ)
    (fee_currency : String) (bank : Rates)
    (price_shift create_threshold redeem_threshold slippage_tolerance : ℚ) :
    Except PyExn (ℤ × List Leg) := do
  let cr ← calculate_converter_profit stock_data weights etf_data quantity convert_fee
      fee_currency .buy bank none slippage_tolerance
  let rd ← calculate_converter_profit stock_data weights etf_data quantity convert_fee
      fee_currency .sell bank none slippage_tolerance
  let signal : ℤ :=
    if cr.1 > 0 ∧ cr.1 / quantity + price_shift > create_threshold then 1 else 0
  let signal2 : ℤ :=
    if rd.1 > 0 ∧ rd.1 / quantity - price_shift > redeem_threshold then -1 else 0
  pure (if create_threshold > redeem_threshold then (signal, cr.2) else (signal2, rd.2))

/-- The single basket stock of the concrete C8 instance: cheap asks, rich bids
    (a crossed book, so both directions are profitable at once). -/
def c8stock : Book := ⟨[(1, 1000)], [(9, 1000)], 0, 0, CAD⟩

/-- The ETF book of the concrete C8 instance. -/
def c8etf : Book := ⟨[(2, 1000)], [(4, 1000)], 0, 0, CAD⟩

/-- Leg list of the create direction in the concrete C8 instance. -/
def c8crlegs : List Leg :=
  [⟨TickS, .market, none, 1, 1, 1⟩, ⟨ETFstr, .market, none, 1, 4, 4⟩]

/-- Leg list of the redeem direction in the concrete C8 instance. -/
def c8rdlegs : List Leg :=
  [⟨TickS, .market, none, 1, 9, 9⟩, ⟨ETFstr, .market, none, 1, 2, 2⟩]

/-- C8: generate_convert_signal returns the create-direction pair whenever
    create_threshold > redeem_threshold and the redeem-direction pair
    otherwise, the selection reading only the two thresholds; concretely, with
    both threshold conditions firing and the redeem direction strictly more
    profitable (7 > 3), thresholds 2 > 1 still select the create result. -/
theorem c8_convert_direction :
    (∀ (stock_data : List (String × Book)) (weights : List (String × ℚ))
       (etf_data : Book) (quantity convert_fee : ℚ) (fee_currency : String)
       (bank : Rates) (price_shift ct rt slip : ℚ) (cr rd : ℚ × List Leg),
      calculate_converter_profit stock_data weights etf_data quantity convert_fee
        fee_currency .buy bank none slip = .ok cr →
      calculate_converter_profit stock_data weights etf_data quantity convert_fee
        fee_currency .sell bank none slip = .ok rd →
      generate_convert_signal stock_data weights etf_data quantity convert_fee
        fee_currency bank price_shift ct rt slip
        = .ok (if ct > rt then
            ((if cr.1 > 0 ∧ cr.1 / quantity + price_shift > ct then 1 else 0 : ℤ), cr.2)
          else
            ((if rd.1 > 0 ∧ rd.1 / quantity - price_shift > rt then -1 else 0 : ℤ),
              rd.2))) ∧
    calculate_converter_profit [(TickS, c8stock)] [(TickS, 1)] c8etf 1 0 CAD .buy
      [] none 0 = .ok (3, c8crlegs) ∧
    calculate_converter_profit [(TickS, c8stock)] [(TickS, 1)] c8etf 1 0 CAD .sell
      [] none 0 = .ok (7, c8rdlegs) ∧
    ((7 : ℚ) > 3) ∧
    ((3 : ℚ) > 0 ∧ (3 : ℚ) / 1 + 0 > 2) ∧
    ((7 : ℚ) > 0 ∧ (7 : ℚ) / 1 - 0 > 1) ∧
    ((2 : ℚ) > 1) ∧
    generate_convert_signal [(TickS, c8stock)] [(TickS, 1)] c8etf 1 0 CAD [] 0 2 1 0
      = .ok (1, c8crlegs) := by
  have hbs : Action.buy ≠ Action.sell := by decide
  have hsb : Action.sell ≠ Action.buy := by decide
  have hgen : ∀ (stock_data : List (String × Book)) (weights : List (String × ℚ))
      (etf_data : Book) (quantity convert_fee : ℚ) (fee_currency : String)
      (bank : Rates) (price_shift ct rt slip : ℚ) (cr rd : ℚ × List Leg),
      calculate_converter_profit stock_data weights etf_data quantity convert_fee
        fee_currency .buy bank none slip = .ok cr →
      calculate_converter_profit stock_data weights etf_data quantity convert_fee
        fee_currency .sell bank none slip = .ok rd →
      generate_convert_signal stock_data weights etf_data quantity convert_fee
        fee_currency bank price_shift ct rt slip
        = .ok (if ct > rt then
            ((if cr.1 > 0 ∧ cr.1 / quantity + price_shift > ct then 1 else 0 : ℤ), cr.2)
          else
            ((if rd.1 > 0 ∧ rd.1 / quantity - price_shift > rt then -1 else 0 : ℤ),
              rd.2)) := by
    intro stock_data weights etf_data quantity convert_fee fee_currency bank
      price_shift ct rt slip cr rd hc hr
    unfold generate_convert_signal
    rw [hc, hr]
    rfl
  have hbuy : calculate_converter_profit [(TickS, c8stock)] [(TickS, 1)] c8etf 1 0 CAD
      .buy [] none 0 = .ok (3, c8crlegs) := by
    norm_num [hbs, hsb, calculate_converter_profit, converter_stocks,
      converter_stock_leg, limit_order_assistant, calculate_total_profit,
      calculate_vwap_market_price, vwapWalk, limitPriceWalk, sideOf, optToExcept,
      currency_value_conversion, currency_value_conversion_targetamount,
      get_exchange_rate, lookup2, alookup, c8stock, c8etf, c8crlegs, bind,
      Except.bind, pure, Except.pure]
  have hsell : calculate_converter_profit [(TickS, c8stock)] [(TickS, 1)] c8etf 1 0 CAD
      .sell [] none 0 = .ok (7, c8rdlegs) := by
    norm_num [hbs, hsb, calculate_converter_profit, converter_stocks,
      converter_stock_leg, limit_order_assistant, calculate_total_profit,
      calculate_vwap_market_price, vwapWalk, limitPriceWalk, sideOf, optToExcept,
      currency_value_conversion, currency_value_conversion_targetamount,
      get_exchange_rate, lookup2, alookup, c8stock, c8etf, c8rdlegs, bind,
      Except.bind, pure, Except.pure]
  have hfinal := hgen [(TickS, c8stock)] [(TickS, 1)] c8etf 1 0 CAD [] 0 2 1 0
    (3, c8crlegs) (7, c8rdlegs) hbuy hsell
  refine ⟨hgen, hbuy, hsell, by norm_num, by norm_num, by norm_num, by norm_num, ?_⟩
  rw [hfinal]
  norm_num

/-- C8 witness: the selection theorem applied to the concrete instance in which
    both threshold conditions fire. -/
theorem c8_witness :
    generate_convert_signal [(TickS, c8stock)] [(TickS, 1)] c8etf 1 0 CAD [] 0 2 1 0
      = .ok (if (2 : ℚ) > 1 then
          ((if ((3 : ℚ), c8crlegs).1 > 0 ∧ ((3 : ℚ), c8crlegs).1 / 1 + 0 > 2
            then 1 else 0 : ℤ), ((3 : ℚ), c8crlegs).2)
        else
          ((if ((7 : ℚ), c8rdlegs).1 > 0 ∧ ((7 : ℚ), c8rdlegs).1 / 1 - 0 > 1
            then -1 else 0 : ℤ), ((7 : ℚ), c8rdlegs).2)) :=
  c8_convert_direction.1 [(TickS, c8stock)] [(TickS, 1)] c8etf 1 0 CAD [] 0 2 1 0
    (3, c8crlegs) (7, c8rdlegs) c8_convert_direction.2.1 c8_convert_direction.2.2.1

end RITC
